import Mathlib

/-!
Verification of the calibrated camera-view component (`src/datasets/image.py`).

The embedding models:
* floating-point raster values and pixel coordinates as `Fp`
  (NaN, the two infinities, or an exact rational), with IEEE comparison
  semantics (`fle`, `fge`: any comparison involving NaN is false);
* 2D rasters as `Tensor2` (spatial extent plus a data function; the color
  bitmap stores a channel function at every spatial location, matching the
  source's channel-first `[C, H, W]` layout);
* 3-vectors and 3x3 matrices over `ℚ` (`V3`, `M3`) with explicit
  multiplication, transpose, determinant, adjugate and inverse, standing in
  for the tensor runtime's linear algebra;
* fallible library operations (tensor indexing, `F.pad`) as `Option`.
-/

set_option autoImplicit false

/-- A floating-point scalar: NaN, +inf, -inf, or a finite value (exact ℚ). -/
inductive Fp where
  | nan : Fp
  | pinf : Fp
  | ninf : Fp
  | q : ℚ → Fp
deriving DecidableEq

/-- IEEE-style `≤` on floats: every comparison involving NaN is false. -/
def fle : Fp → Fp → Bool
  | Fp.nan, _ => false
  | _, Fp.nan => false
  | Fp.ninf, _ => true
  | _, Fp.ninf => false
  | _, Fp.pinf => true
  | Fp.pinf, _ => false
  | Fp.q a, Fp.q b => decide (a ≤ b)

/-- IEEE-style `≥` on floats. -/
def fge (a b : Fp) : Bool := fle b a

/-- `torch.isfinite` on one scalar. -/
def Fp.isFinite : Fp → Bool
  | Fp.q _ => true
  | _ => false

/-- Truncation toward zero, the semantics of Python `int()` and of casting a
float tensor `.to(torch.int64)`. -/
def truncQ (q : ℚ) : ℤ := if 0 ≤ q then ⌊q⌋ else -⌊-q⌋

/-- A 3-vector over ℚ. -/
@[ext]
structure V3 where
  x : ℚ
  y : ℚ
  z : ℚ
deriving DecidableEq

/-- A 3x3 matrix over ℚ, row-major: rows `(a b c)`, `(d e f)`, `(g h i)`. -/
@[ext]
structure M3 where
  a : ℚ
  b : ℚ
  c : ℚ
  d : ℚ
  e : ℚ
  f : ℚ
  g : ℚ
  h : ℚ
  i : ℚ
deriving DecidableEq

/-- Matrix-vector product. -/
def mulv (A : M3) (v : V3) : V3 :=
  ⟨A.a * v.x + A.b * v.y + A.c * v.z,
   A.d * v.x + A.e * v.y + A.f * v.z,
   A.g * v.x + A.h * v.y + A.i * v.z⟩

/-- Matrix-matrix product. -/
def mul3 (A B : M3) : M3 :=
  ⟨A.a * B.a + A.b * B.d + A.c * B.g,
   A.a * B.b + A.b * B.e + A.c * B.h,
   A.a * B.c + A.b * B.f + A.c * B.i,
   A.d * B.a + A.e * B.d + A.f * B.g,
   A.d * B.b + A.e * B.e + A.f * B.h,
   A.d * B.c + A.e * B.f + A.f * B.i,
   A.g * B.a + A.h * B.d + A.i * B.g,
   A.g * B.b + A.h * B.e + A.i * B.h,
   A.g * B.c + A.h * B.f + A.i * B.i⟩

/-- Transpose. -/
def tr3 (A : M3) : M3 := ⟨A.a, A.d, A.g, A.b, A.e, A.h, A.c, A.f, A.i⟩

/-- Scalar multiple of a matrix. -/
def smul3 (c : ℚ) (A : M3) : M3 :=
  ⟨c * A.a, c * A.b, c * A.c, c * A.d, c * A.e, c * A.f, c * A.g, c * A.h, c * A.i⟩

/-- Scalar multiple of a vector (the per-point depth scaling `* depth`). -/
def smul (c : ℚ) (v : V3) : V3 := ⟨c * v.x, c * v.y, c * v.z⟩

/-- Vector addition. -/
def vadd (u v : V3) : V3 := ⟨u.x + v.x, u.y + v.y, u.z + v.z⟩

/-- Vector subtraction. -/
def vsub (u v : V3) : V3 := ⟨u.x - v.x, u.y - v.y, u.z - v.z⟩

/-- Identity matrix. -/
def i3 : M3 := ⟨1, 0, 0, 0, 1, 0, 0, 0, 1⟩

/-- Determinant of a 3x3 matrix. -/
def det3 (A : M3) : ℚ :=
  A.a * (A.e * A.i - A.f * A.h) - A.b * (A.d * A.i - A.f * A.g)
    + A.c * (A.d * A.h - A.e * A.g)

/-- Adjugate of a 3x3 matrix. -/
def adj3 (A : M3) : M3 :=
  ⟨A.e * A.i - A.f * A.h, -(A.b * A.i - A.c * A.h), A.b * A.f - A.c * A.e,
   -(A.d * A.i - A.f * A.g), A.a * A.i - A.c * A.g, -(A.a * A.f - A.c * A.d),
   A.d * A.h - A.e * A.g, -(A.a * A.h - A.b * A.g), A.a * A.e - A.b * A.d⟩

/-- Matrix inverse via the adjugate, the semantics of `torch.inverse` on a
non-singular matrix (`K.inverse()` in the source). -/
def inv3 (A : M3) : M3 := smul3 (1 / det3 A) (adj3 A)

/-- A 2D raster: spatial extent `(h, w)` plus a data function. -/
structure Tensor2 (α : Type) where
  h : ℕ
  w : ℕ
  data : ℕ → ℕ → α

theorem mulv_mulv (A B : M3) (v : V3) : mulv A (mulv B v) = mulv (mul3 A B) v := by
  ext <;> simp [mulv, mul3] <;> ring

theorem mulv_i3 (v : V3) : mulv i3 v = v := by
  ext <;> simp [mulv, i3]

theorem vsub_then_vadd (u v : V3) : vadd (vsub u v) v = u := by
  ext <;> simp [vadd, vsub]

theorem mulv_smul (A : M3) (c : ℚ) (v : V3) : mulv A (smul c v) = smul c (mulv A v) := by
  ext <;> simp [mulv, smul] <;> ring

theorem mulv_inv3_cancel (A : M3) (hdet : det3 A ≠ 0) (v : V3) :
    mulv A (mulv (inv3 A) v) = v := by
  have hd : A.a * (A.e * A.i - A.f * A.h) - A.b * (A.d * A.i - A.f * A.g)
      + A.c * (A.d * A.h - A.e * A.g) ≠ 0 := hdet
  ext <;>
    (simp only [mulv, inv3, smul3, adj3, det3]; field_simp; try ring)

/-- `F.pad(t, (0, xpad, 0, ypad), mode=constant, value=v)` followed by the
source's shape assertion (`_pad` in the source). Padding amounts are computed
as `size - current extent` and may be negative, in which case the padding
primitive crops rows/columns from the high-index edge; the result extent is
`current + pad = size` in each spatial dimension. The only failure of the
primitive is a resulting dimension below zero, impossible for natural target
sizes; the assertion compares the result's extent with `size`. -/
def padRaw {α : Type} (t : Tensor2 α) (size : ℕ × ℕ) (v : α) : Option (Tensor2 α) :=
  let xpad : ℤ := (size.2 : ℤ) - (t.w : ℤ)
  let ypad : ℤ := (size.1 : ℤ) - (t.h : ℤ)
  if (t.h : ℤ) + ypad < 0 ∨ (t.w : ℤ) + xpad < 0 then none
  else
    -- rows/columns are appended (or cropped) at the bottom/right only, so a
    -- result cell is the original cell when inside the original extent and
    -- the fill value otherwise; the result extent is (h + ypad, w + xpad),
    -- which equals `size` by arithmetic.
    let padded : Tensor2 α :=
      ⟨size.1, size.2, fun row col => if row < t.h ∧ col < t.w then t.data row col else v⟩
    -- assert padded.shape[1:] == tuple(size)
    if (padded.h, padded.w) = size then some padded else none

/-- The calibrated view: `class Image` of the source. `bitmap` is channel-first
`[C, H, W]`, modelled as a spatial raster whose cells are channel functions;
`depth` is `[1, H, W]`, modelled by its single channel; `mask` is `[H, W]`
boolean. The three rasters keep their own extents because the constructor
performs no shape check. -/
structure Image where
  K : M3
  R : M3
  T : V3
  bitmap : Tensor2 (ℕ → ℚ)
  depth : Tensor2 Fp
  mask : Tensor2 Bool

/-- `Image.__init__`: stores `K, R, T, depth, bitmap` as given; when `mask` is
omitted it synthesizes `torch.ones(bitmap.shape[-2:]).bool()` (all-true,
sized to the bitmap), otherwise it stores `mask.bool()` (nonzero means true).
No shape check of any kind is performed. -/
def Image.make (K R : M3) (T : V3) (bitmap : Tensor2 (ℕ → ℚ)) (depth : Tensor2 Fp)
    (mask : Option (Tensor2 ℚ)) : Image :=
  { K := K, R := R, T := T, bitmap := bitmap, depth := depth,
    mask :=
      match mask with
      | none => ⟨bitmap.h, bitmap.w, fun _ _ => true⟩
      | some m => ⟨m.h, m.w, fun row col => decide (m.data row col ≠ 0)⟩ }

/-- `Image.K_inv` property: `self.K.inverse()`. -/
def Image.K_inv (img : Image) : M3 := inv3 img.K

/-- `Image.shape` property: `self.bitmap.shape[-2:] = (H, W)`. -/
def Image.shape (img : Image) : ℕ × ℕ := (img.bitmap.h, img.bitmap.w)

/-- Boolean mask tensor re-expressed as the 0/1 float tensor an operation
passes back into the constructor (which casts it with `.bool()` again). -/
def maskToQ (m : Tensor2 Bool) : Tensor2 ℚ :=
  ⟨m.h, m.w, fun row col => if m.data row col then 1 else 0⟩

/-- `Image.in_range_mask`, per coordinate: with `h, w = self.shape`, the
result is `(x >= 0) & (y >= 0) & (x <= w) & (y <= h)` under float comparison
semantics (the source applies this elementwise over the `[2, N]` batch). -/
def Image.in_range_mask (img : Image) (x y : Fp) : Bool :=
  fge x (Fp.q 0) && fge y (Fp.q 0) &&
    fle x (Fp.q (img.bitmap.w : ℚ)) && fle y (Fp.q (img.bitmap.h : ℚ))

/-- `valid_depth = in_range & finite` inside `Image.fetch_depth`:
in-range and both components finite. -/
def Image.valid_depth (img : Image) (x y : Fp) : Bool :=
  img.in_range_mask x y && (x.isFinite && y.isFinite)

/-- Indexing one dimension of a torch tensor with an `int64` index: indices in
`[0, n)` are used as-is, indices in `[-n, 0)` wrap around, anything else
raises `IndexError` (modelled as `none`). -/
def torchIndex (n : ℕ) (idx : ℤ) : Option ℕ :=
  if 0 ≤ idx ∧ idx < (n : ℤ) then some idx.toNat
  else if -(n : ℤ) ≤ idx ∧ idx < 0 then some (idx + n).toNat
  else none

/-- One coordinate of `Image.fetch_depth`: an invalid coordinate keeps the
prefilled NaN; a valid coordinate is cast to `int64` (truncation toward zero)
and looks up `self.depth[0, y, x]`, which raises (`none`) when an index is out
of the depth raster's bounds. A valid coordinate is always finite
(`valid_depth` includes the finiteness test), so the non-finite match arms are
unreachable. -/
def Image.fetchOne (img : Image) (x y : Fp) : Option Fp :=
  if img.valid_depth x y then
    match x, y with
    | Fp.q qx, Fp.q qy =>
      match torchIndex img.depth.h (truncQ qy), torchIndex img.depth.w (truncQ qx) with
      | some row, some col => some (img.depth.data row col)
      | _, _ => none
    | _, _ => none
  else some Fp.nan

/-- `Image.fetch_depth` over a coordinate batch (given as a list of `(x, y)`
pairs, the columns of the source's `[2, N]` tensor): the output vector holds
NaN at invalid coordinates and the looked-up stored depth at valid ones; an
out-of-bounds lookup for any valid coordinate raises (`none`). -/
def Image.fetch_depth (img : Image) : List (Fp × Fp) → Option (List Fp)
  | [] => some []
  | c :: rest =>
    match img.fetchOne c.1 c.2, img.fetch_depth rest with
    | some d, some ds => some (d :: ds)
    | _, _ => none

/-- `Image.unproject`, per point, on the finite path: fetch the depth, append
a homogeneous 1, scale the back-projected ray `K_inv @ xyw` by the depth, and
apply the inverse rigid transform `R.T @ (xyz - T)`. The source computes in
floats, so a NaN depth (invalid coordinate or NaN stored depth) propagates NaN
into every output component; the model returns `none` in exactly those
non-finite cases and the exact rational point otherwise. -/
def Image.unproject (img : Image) (x y : ℚ) : Option V3 :=
  match img.fetchOne (Fp.q x) (Fp.q y) with
  | some (Fp.q d) =>
    some (mulv (tr3 img.R) (vsub (smul d (mulv img.K_inv ⟨x, y, 1⟩)) img.T))
  | _ => none

/-- `Image.project`, per point: `extrinsic = R @ xyw + T`,
`intrinsic = K @ extrinsic`, output `intrinsic[:2] / intrinsic[2]`. -/
def Image.project (img : Image) (p : V3) : ℚ × ℚ :=
  let extrinsic := vadd (mulv img.R p) img.T
  let intrinsic := mulv img.K extrinsic
  (intrinsic.x / intrinsic.z, intrinsic.y / intrinsic.z)

/-- The new-size computation of `Image.scale`: `x_factor = H/Ht`,
`y_factor = W/Wt`, `f = 1 / max(x_factor, y_factor)`, and the non-pinned
dimension is `int(f * old)` — Python `int()`, i.e. truncation toward zero. -/
def scale_size (H W Ht Wt : ℕ) : ℤ × ℤ :=
  let x_factor : ℚ := (H : ℚ) / (Ht : ℚ)
  let y_factor : ℚ := (W : ℚ) / (Wt : ℚ)
  let f : ℚ := 1 / max x_factor y_factor
  if x_factor > y_factor then ((Ht : ℤ), truncQ (f * (W : ℚ)))
  else (truncQ (f * (H : ℚ)), (Wt : ℤ))

/-- The intrinsic-update matrix of `Image.scale`:
`[[f, 0, f], [0, f, f], [0, 0, 1]]`. -/
def kScaler (f : ℚ) : M3 := ⟨f, 0, f, 0, f, f, 0, 0, 1⟩

/-- `Image.scale`: computes the aspect-fit size and factor `f`, sets
`K = K_scaler @ K`, resamples the three rasters to the new size with the
runtime's bilinear `_rescale` (an external primitive, passed here as the
functions `rB`, `rD`, `rM`), and rebuilds the view with the same `R`, `T`. -/
def Image.scale (rB : Tensor2 (ℕ → ℚ) → ℕ × ℕ → Tensor2 (ℕ → ℚ))
    (rD : Tensor2 Fp → ℕ × ℕ → Tensor2 Fp)
    (rM : Tensor2 Bool → ℕ × ℕ → Tensor2 Bool)
    (img : Image) (size : ℕ × ℕ) : Image :=
  let f : ℚ := 1 / max ((img.bitmap.h : ℚ) / (size.1 : ℚ)) ((img.bitmap.w : ℚ) / (size.2 : ℚ))
  let ns := scale_size img.bitmap.h img.bitmap.w size.1 size.2
  let nsn : ℕ × ℕ := (ns.1.toNat, ns.2.toNat)
  Image.make (mul3 (kScaler f) img.K) img.R img.T
    (rB img.bitmap nsn) (rD img.depth nsn) (some (maskToQ (rM img.mask nsn)))

/-- `Image.pad`: pads `bitmap` with 0 (per channel), `depth` with NaN and the
boolean `mask` with 0/false to `size`, then rebuilds the view with the same
`K`, `R`, `T` (the padded boolean mask goes through the constructor's
`.bool()` cast as a 0/1 field). -/
def Image.pad (img : Image) (size : ℕ × ℕ) : Option Image := do
  let bitmap ← padRaw img.bitmap size (fun _ => 0)
  let depth ← padRaw img.depth size Fp.nan
  let mask ← padRaw img.mask size false
  pure (Image.make img.K img.R img.T bitmap depth (some (maskToQ mask)))

/-- Modelled from the claim's words (C5), for comparison with `scale_size`:
identical except that the non-pinned dimension is `round(f * old)`. -/
def scale_size_claimed (H W Ht Wt : ℕ) : ℤ × ℤ :=
  let x_factor : ℚ := (H : ℚ) / (Ht : ℚ)
  let y_factor : ℚ := (W : ℚ) / (Wt : ℚ)
  let f : ℚ := 1 / max x_factor y_factor
  if x_factor > y_factor then ((Ht : ℤ), round (f * (W : ℚ)))
  else (round (f * (H : ℚ)), (Wt : ℤ))

/-- A concrete 2x2 view used by the concrete evaluations below: identity
calibration, stored depth `10*row + col` at `(row, col)`, all-true mask. -/
def imgA : Image :=
  Image.make i3 i3 ⟨0, 0, 0⟩ ⟨2, 2, fun _ _ _ => 0⟩
    ⟨2, 2, fun row col => Fp.q ((10 * row + col : ℕ) : ℚ)⟩ none

/-- A concrete 1x1 view used by the padding evaluations. -/
def imgP : Image :=
  Image.make i3 i3 ⟨0, 0, 0⟩ ⟨1, 1, fun _ _ _ => 3⟩ ⟨1, 1, fun _ _ => Fp.q 7⟩ none

/-- C4: for a view of spatial shape `(H, W)`, `in_range_mask` holds exactly on
`0 ≤ x ≤ W` and `0 ≤ y ≤ H`, both bounds inclusive, independently of the
validity mask; `(0,0)` and `(W,H)` are in-range and `(W + 1e-6, 0)` is not. -/
theorem c4_in_range_mask_bounds (img : Image) (x y : ℚ) :
    (img.in_range_mask (Fp.q x) (Fp.q y) = true ↔
      (0 ≤ x ∧ x ≤ (img.bitmap.w : ℚ) ∧ 0 ≤ y ∧ y ≤ (img.bitmap.h : ℚ)))
    ∧ (∀ m : Tensor2 Bool,
        Image.in_range_mask { img with mask := m } (Fp.q x) (Fp.q y)
          = img.in_range_mask (Fp.q x) (Fp.q y))
    ∧ img.in_range_mask (Fp.q 0) (Fp.q 0) = true
    ∧ img.in_range_mask (Fp.q ((img.bitmap.w : ℕ) : ℚ)) (Fp.q ((img.bitmap.h : ℕ) : ℚ)) = true
    ∧ img.in_range_mask (Fp.q (((img.bitmap.w : ℕ) : ℚ) + 1 / 1000000)) (Fp.q 0) = false := by
  refine ⟨?_, fun m => rfl, ?_, ?_, ?_⟩
  · simp only [Image.in_range_mask, fge, fle, Bool.and_eq_true, decide_eq_true_eq]
    tauto
  · simp [Image.in_range_mask, fge, fle]
  · simp [Image.in_range_mask, fge, fle]
  · rw [Bool.eq_false_iff]
    intro hcontra
    simp only [Image.in_range_mask, fge, fle, Bool.and_eq_true, decide_eq_true_eq] at hcontra
    obtain ⟨⟨⟨-, -⟩, hc⟩, -⟩ := hcontra
    linarith

/-- C10: a coordinate with a non-finite component (NaN or either infinity) is
already classified out-of-range by `in_range_mask` alone: every comparison
against NaN is false, and an infinity fails one of the two bound comparisons. -/
theorem c10_nonfinite_out_of_range (img : Image) (x y : Fp)
    (h : x.isFinite = false ∨ y.isFinite = false) :
    img.in_range_mask x y = false := by
  cases x <;> cases y <;>
    simp_all [Image.in_range_mask, fge, fle, Fp.isFinite]

/-- Witness for C10 at a concrete input: `x = +inf` is non-finite and the
concrete 2x2 view classifies `(+inf, 0)` as out-of-range. -/
theorem c10_witness :
    (Fp.isFinite Fp.pinf = false ∨ Fp.isFinite (Fp.q 0) = false)
    ∧ imgA.in_range_mask Fp.pinf (Fp.q 0) = false :=
  ⟨Or.inl rfl, c10_nonfinite_out_of_range imgA Fp.pinf (Fp.q 0) (Or.inl rfl)⟩

/-- C3: the claim fails on the code. On the concrete 2x2 view, the boundary
coordinate `(x, y) = (W, 0) = (2, 0)` is classified valid (inclusive upper
bound), truncates to column index 2, which is outside the depth raster's
column range `[0, 1]`, so the lookup `depth[0, y, x]` raises instead of
returning NaN: `fetch_depth` does signal an error. -/
theorem c3_boundary_lookup_raises :
    imgA.in_range_mask (Fp.q 2) (Fp.q 0) = true
    ∧ imgA.valid_depth (Fp.q 2) (Fp.q 0) = true
    ∧ truncQ 2 = 2
    ∧ imgA.depth.w = 2
    ∧ imgA.fetch_depth [(Fp.q 2, Fp.q 0)] = none := by
  refine ⟨rfl, rfl, ?_, rfl, ?_⟩ <;> decide

/-- C7: the claim fails on the code. The constructor performs no shape check:
a bitmap of extent (2, 2) together with a depth raster of extent (3, 3) is
accepted, and the mismatched extents are stored unchanged in the constructed
view — no precondition violation is signalled. -/
theorem c7_counterexample :
    (Image.make i3 i3 ⟨0, 0, 0⟩ ⟨2, 2, fun _ _ _ => 0⟩
        ⟨3, 3, fun _ _ => Fp.nan⟩ none).bitmap.h = 2
    ∧ (Image.make i3 i3 ⟨0, 0, 0⟩ ⟨2, 2, fun _ _ _ => 0⟩
        ⟨3, 3, fun _ _ => Fp.nan⟩ none).depth.h = 3 :=
  ⟨rfl, rfl⟩

/-- C7 amended: construction always succeeds, for matching and mismatched
extents alike — `__init__` stores `K, R, T, bitmap, depth` exactly as given
with no shape check; an omitted mask is synthesized all-true at the bitmap's
extent, and a supplied mask is cast to boolean (nonzero means true) with its
own extent kept. -/
theorem c7_amended (K R : M3) (T : V3) (bitmap : Tensor2 (ℕ → ℚ)) (depth : Tensor2 Fp) :
    (∀ m : Option (Tensor2 ℚ),
      (Image.make K R T bitmap depth m).K = K
      ∧ (Image.make K R T bitmap depth m).R = R
      ∧ (Image.make K R T bitmap depth m).T = T
      ∧ (Image.make K R T bitmap depth m).bitmap = bitmap
      ∧ (Image.make K R T bitmap depth m).depth = depth)
    ∧ (Image.make K R T bitmap depth none).mask
        = ⟨bitmap.h, bitmap.w, fun _ _ => true⟩
    ∧ (∀ m : Tensor2 ℚ, (Image.make K R T bitmap depth (some m)).mask
        = ⟨m.h, m.w, fun row col => decide (m.data row col ≠ 0)⟩) :=
  ⟨fun _ => ⟨rfl, rfl, rfl, rfl, rfl⟩, rfl, fun _ => rfl⟩

theorem padRaw_eq {α : Type} (t : Tensor2 α) (a b : ℕ) (v : α) :
    padRaw t (a, b) v =
      some ⟨a, b, fun row col => if row < t.h ∧ col < t.w then t.data row col else v⟩ := by
  unfold padRaw
  dsimp only
  rw [if_neg, if_pos rfl]
  push_neg
  omega

theorem Image.pad_eq (img : Image) (a b : ℕ) :
    img.pad (a, b) = some (Image.make img.K img.R img.T
      ⟨a, b, fun row col =>
        if row < img.bitmap.h ∧ col < img.bitmap.w then img.bitmap.data row col
        else fun _ => 0⟩
      ⟨a, b, fun row col =>
        if row < img.depth.h ∧ col < img.depth.w then img.depth.data row col
        else Fp.nan⟩
      (some (maskToQ ⟨a, b, fun row col =>
        if row < img.mask.h ∧ col < img.mask.w then img.mask.data row col
        else false⟩))) := by
  unfold Image.pad
  rw [padRaw_eq, padRaw_eq, padRaw_eq]
  rfl

/-- C8: the claim fails on the code. On the concrete 2x2 view, `pad((1, 2))`
with a target height 1 smaller than the current height 2 does not fail: the
padding primitive accepts the negative amount and crops, so the result is a
view of shape exactly (1, 2) and the shape assertion passes. -/
theorem c8_counterexample :
    1 < imgA.bitmap.h
    ∧ (imgA.pad (1, 2)).isSome = true
    ∧ (imgA.pad (1, 2)).map (fun v => (v.bitmap.h, v.bitmap.w)) = some (1, 2) := by
  refine ⟨?_, ?_, ?_⟩ <;> decide

/-- C8 amended: `pad` never fails. For every target `(Ht, Wt)` it succeeds and
returns a view whose rasters have extent exactly `(Ht, Wt)`: the padding
amounts `target - current` may be negative, in which case the padding
primitive silently crops the bottom/right overhang, and the assertion — which
compares the result's shape with the target — always passes. Padding to a
target at least as large as the current extent succeeds as the claim states. -/
theorem c8_amended (img : Image) (Ht Wt : ℕ) :
    ∃ v, img.pad (Ht, Wt) = some v
      ∧ v.bitmap.h = Ht ∧ v.bitmap.w = Wt
      ∧ v.depth.h = Ht ∧ v.depth.w = Wt
      ∧ v.mask.h = Ht ∧ v.mask.w = Wt :=
  ⟨_, Image.pad_eq img Ht Wt, rfl, rfl, rfl, rfl, rfl, rfl⟩

/-- The exact-size contract of `pad` on a view of shape `(H, W)` enlarged to
`(Ht, Wt)`: intrinsics and extrinsics unchanged, every raster of extent
exactly `(Ht, Wt)`, the original top-left `(H, W)` sub-region of bitmap,
depth and mask kept identically, the appended depth region all-NaN and the
appended mask region all-false. -/
def PadContract (img v : Image) (Ht Wt : ℕ) : Prop :=
  v.K = img.K ∧ v.R = img.R ∧ v.T = img.T
  ∧ v.bitmap.h = Ht ∧ v.bitmap.w = Wt
  ∧ v.depth.h = Ht ∧ v.depth.w = Wt
  ∧ v.mask.h = Ht ∧ v.mask.w = Wt
  ∧ (∀ row col, row < img.bitmap.h → col < img.bitmap.w →
      v.bitmap.data row col = img.bitmap.data row col)
  ∧ (∀ row col, row < img.bitmap.h → col < img.bitmap.w →
      v.depth.data row col = img.depth.data row col)
  ∧ (∀ row col, row < img.bitmap.h → col < img.bitmap.w →
      v.mask.data row col = img.mask.data row col)
  ∧ (∀ row col, row < Ht → col < Wt → ¬(row < img.bitmap.h ∧ col < img.bitmap.w) →
      v.depth.data row col = Fp.nan)
  ∧ (∀ row col, row < Ht → col < Wt → ¬(row < img.bitmap.h ∧ col < img.bitmap.w) →
      v.mask.data row col = false)

/-- C9: for a view of shape `(H, W)` (all rasters at that extent) and any
target with `H ≤ Ht` and `W ≤ Wt`, `pad((Ht, Wt))` succeeds and satisfies the
exact-size contract: shape exactly `(Ht, Wt)`, original content kept in the
top-left sub-region, appended depth all-NaN, appended mask all-false, and
`K`, `R`, `T` unchanged. -/
theorem c9_pad_contract (img : Image) (Ht Wt : ℕ)
    (hdh : img.depth.h = img.bitmap.h) (hdw : img.depth.w = img.bitmap.w)
    (hmh : img.mask.h = img.bitmap.h) (hmw : img.mask.w = img.bitmap.w)
    (hH : img.bitmap.h ≤ Ht) (hW : img.bitmap.w ≤ Wt) :
    ∃ v, img.pad (Ht, Wt) = some v ∧ PadContract img v Ht Wt := by
  refine ⟨_, Image.pad_eq img Ht Wt, ?_⟩
  refine ⟨rfl, rfl, rfl, rfl, rfl, rfl, rfl, rfl, rfl, ?_, ?_, ?_, ?_, ?_⟩
  · intro row col hr hc
    dsimp only [Image.make]
    rw [if_pos ⟨hr, hc⟩]
  · intro row col hr hc
    dsimp only [Image.make]
    rw [if_pos (show row < img.depth.h ∧ col < img.depth.w by omega)]
  · intro row col hr hc
    dsimp only [Image.make, maskToQ]
    rw [if_pos (show row < img.mask.h ∧ col < img.mask.w by omega)]
    cases img.mask.data row col <;> decide
  · intro row col _ _ hout
    dsimp only [Image.make]
    rw [if_neg (show ¬(row < img.depth.h ∧ col < img.depth.w) by omega)]
  · intro row col _ _ hout
    dsimp only [Image.make, maskToQ]
    rw [if_neg (show ¬(row < img.mask.h ∧ col < img.mask.w) by omega)]
    decide

/-- Witness for C9 at a concrete input: the 1x1 view padded to (2, 3). -/
theorem c9_witness :
    (imgP.depth.h = imgP.bitmap.h ∧ imgP.depth.w = imgP.bitmap.w
      ∧ imgP.mask.h = imgP.bitmap.h ∧ imgP.mask.w = imgP.bitmap.w
      ∧ imgP.bitmap.h ≤ 2 ∧ imgP.bitmap.w ≤ 3)
    ∧ ∃ v, imgP.pad (2, 3) = some v ∧ PadContract imgP v 2 3 :=
  ⟨⟨rfl, rfl, rfl, rfl, by decide, by decide⟩,
    c9_pad_contract imgP 2 3 rfl rfl rfl rfl (by decide) (by decide)⟩

theorem valid_depth_finite (img : Image) (x y : Fp)
    (h : img.valid_depth x y = true) : x.isFinite = true ∧ y.isFinite = true := by
  unfold Image.valid_depth at h
  simp only [Bool.and_eq_true] at h
  exact h.2

theorem valid_depth_nonneg (img : Image) (qx qy : ℚ)
    (h : img.valid_depth (Fp.q qx) (Fp.q qy) = true) : 0 ≤ qx ∧ 0 ≤ qy := by
  unfold Image.valid_depth Image.in_range_mask at h
  simp only [fge, fle, Bool.and_eq_true, decide_eq_true_eq] at h
  exact ⟨h.1.1.1.1, h.1.1.1.2⟩

theorem truncQ_nonneg (q : ℚ) (h : 0 ≤ q) : 0 ≤ truncQ q := by
  unfold truncQ
  rw [if_pos h]
  exact Int.floor_nonneg.mpr h

theorem torchIndex_of_nonneg (n : ℕ) (idx : ℤ) (j : ℕ) (h0 : 0 ≤ idx)
    (h : torchIndex n idx = some j) : j = idx.toNat := by
  unfold torchIndex at h
  by_cases h1 : 0 ≤ idx ∧ idx < (n : ℤ)
  · rw [if_pos h1] at h
    exact (Option.some.inj h).symm
  · rw [if_neg h1, if_neg (by omega)] at h
    exact absurd h (by simp)

/-- The per-coordinate contract of `fetch_depth`'s output: NaN at an invalid
coordinate, and the stored depth at the truncated row/column index at a valid
one. -/
def FetchSpec (img : Image) (c : Fp × Fp) (d : Fp) : Prop :=
  (img.valid_depth c.1 c.2 = false → d = Fp.nan) ∧
  (img.valid_depth c.1 c.2 = true →
    ∃ qx qy, c.1 = Fp.q qx ∧ c.2 = Fp.q qy ∧
      d = img.depth.data (truncQ qy).toNat (truncQ qx).toNat)

theorem fetchOne_spec (img : Image) (c : Fp × Fp) (d : Fp)
    (h : img.fetchOne c.1 c.2 = some d) : FetchSpec img c d := by
  obtain ⟨x, y⟩ := c
  by_cases hv : img.valid_depth x y = true
  · refine ⟨fun hfalse => by rw [hv] at hfalse; exact absurd hfalse (by simp), fun _ => ?_⟩
    have hfin := valid_depth_finite img x y hv
    cases x with
    | nan => exact absurd hfin.1 (by simp [Fp.isFinite])
    | pinf => exact absurd hfin.1 (by simp [Fp.isFinite])
    | ninf => exact absurd hfin.1 (by simp [Fp.isFinite])
    | q qx =>
      cases y with
      | nan => exact absurd hfin.2 (by simp [Fp.isFinite])
      | pinf => exact absurd hfin.2 (by simp [Fp.isFinite])
      | ninf => exact absurd hfin.2 (by simp [Fp.isFinite])
      | q qy =>
        have hnn := valid_depth_nonneg img qx qy hv
        refine ⟨qx, qy, rfl, rfl, ?_⟩
        unfold Image.fetchOne at h
        dsimp only at h
        rw [if_pos hv] at h
        cases hrow : torchIndex img.depth.h (truncQ qy) with
        | none => rw [hrow] at h; exact absurd h (by simp)
        | some row =>
          cases hcol : torchIndex img.depth.w (truncQ qx) with
          | none => rw [hrow, hcol] at h; exact absurd h (by simp)
          | some col =>
            rw [hrow, hcol] at h
            have hr := torchIndex_of_nonneg _ _ _ (truncQ_nonneg qy hnn.2) hrow
            have hc := torchIndex_of_nonneg _ _ _ (truncQ_nonneg qx hnn.1) hcol
            rw [← Option.some.inj h, hr, hc]
  · have hv' : img.valid_depth x y = false := by
      cases hb : img.valid_depth x y
      · rfl
      · exact absurd hb hv
    refine ⟨fun _ => ?_, fun htrue => absurd htrue hv⟩
    unfold Image.fetchOne at h
    rw [if_neg (by rw [hv']; simp)] at h
    exact (Option.some.inj h).symm

/-- C2 amended: whenever the raster lookup succeeds (in particular when no
valid coordinate lies on the inclusive boundary `x = W` or `y = H`),
`fetch_depth` returns a vector of the input batch's length in which every
out-of-range or non-finite coordinate yields NaN and every valid coordinate
yields exactly the stored depth at its truncated integer row/column index. -/
theorem c2_fetch_depth_mapping (img : Image) (xy : List (Fp × Fp)) (out : List Fp)
    (hout : img.fetch_depth xy = some out) :
    out.length = xy.length ∧ List.Forall₂ (FetchSpec img) xy out := by
  induction xy generalizing out with
  | nil =>
    unfold Image.fetch_depth at hout
    rw [← Option.some.inj hout]
    exact ⟨rfl, List.Forall₂.nil⟩
  | cons c rest ih =>
    unfold Image.fetch_depth at hout
    cases h1 : img.fetchOne c.1 c.2 with
    | none => rw [h1] at hout; exact absurd hout (by simp)
    | some d =>
      cases h2 : Image.fetch_depth img rest with
      | none => rw [h1, h2] at hout; exact absurd hout (by simp)
      | some ds =>
        rw [h1, h2] at hout
        obtain ⟨hlen, hall⟩ := ih ds h2
        rw [← Option.some.inj hout]
        exact ⟨by simp [hlen], List.Forall₂.cons (fetchOne_spec img c d h1) hall⟩

/-- C2 counterexample: the claim as stated fails on the boundary. On the
concrete 2x2 view the coordinate `(0, 2)` (y on the inclusive boundary
`y = H`) is valid, so per the claim the output would hold the stored depth at
row index 2 — but the depth raster has rows 0 and 1 only, and the lookup
raises: there is no output vector at all. -/
theorem c2_counterexample :
    imgA.valid_depth (Fp.q 0) (Fp.q 2) = true
    ∧ imgA.fetch_depth [(Fp.q 0, Fp.q 2)] = none := by
  refine ⟨?_, ?_⟩ <;> decide

/-- One half, written in lowest terms so that kernel reduction can evaluate
comparisons and truncation on it. -/
def half : ℚ := ⟨1, 2, by decide, by decide⟩

/-- Three halves, written in lowest terms. -/
def threeHalves : ℚ := ⟨3, 2, by decide, by decide⟩

/-- Witness for C2 at a concrete input: a batch with one valid interior
coordinate (fractional, truncated to pixel (1, 0)), one NaN coordinate, one
out-of-range coordinate and one infinite coordinate. -/
theorem c2_witness :
    imgA.fetch_depth
        [(Fp.q half, Fp.q threeHalves), (Fp.nan, Fp.q 0), (Fp.q 5, Fp.q 0), (Fp.q 0, Fp.ninf)]
      = some [Fp.q 10, Fp.nan, Fp.nan, Fp.nan]
    ∧ ([Fp.q 10, Fp.nan, Fp.nan, Fp.nan] : List Fp).length
        = ([(Fp.q half, Fp.q threeHalves), (Fp.nan, Fp.q 0), (Fp.q 5, Fp.q 0), (Fp.q 0, Fp.ninf)]
            : List (Fp × Fp)).length
    ∧ List.Forall₂ (FetchSpec imgA)
        [(Fp.q half, Fp.q threeHalves), (Fp.nan, Fp.q 0), (Fp.q 5, Fp.q 0), (Fp.q 0, Fp.ninf)]
        [Fp.q 10, Fp.nan, Fp.nan, Fp.nan] := by
  have h : imgA.fetch_depth
      [(Fp.q half, Fp.q threeHalves), (Fp.nan, Fp.q 0), (Fp.q 5, Fp.q 0), (Fp.q 0, Fp.ninf)]
      = some [Fp.q 10, Fp.nan, Fp.nan, Fp.nan] := by decide
  obtain ⟨h1, h2⟩ := c2_fetch_depth_mapping imgA _ _ h
  exact ⟨h, h1, h2⟩

theorem truncQ_le_of_le (q : ℚ) (z : ℕ) (h0 : 0 ≤ q) (h : q ≤ (z : ℚ)) :
    truncQ q ≤ (z : ℤ) := by
  unfold truncQ
  rw [if_pos h0]
  exact_mod_cast le_trans (Int.floor_le q) h

/-- C5 amended: with `x_factor = H/Ht`, `y_factor = W/Wt` and
`f = 1 / max(x_factor, y_factor)`, the new size is `(Ht, trunc(f * W))` when
`x_factor > y_factor` and `(trunc(f * H), Wt)` otherwise, where `trunc` is
Python `int()` (truncation toward zero), not rounding; the branch-pinned
dimension equals its target exactly, the other dimension is at most its
target (when the two factors are equal, both dimensions may equal their
targets). -/
theorem c5_scale_size (H W Ht Wt : ℕ)
    (hH : 0 < H) (hW : 0 < W) (hHt : 0 < Ht) (hWt : 0 < Wt) :
    ((H : ℚ) / (Ht : ℚ) > (W : ℚ) / (Wt : ℚ) →
      scale_size H W Ht Wt
        = ((Ht : ℤ), truncQ ((1 / max ((H : ℚ) / (Ht : ℚ)) ((W : ℚ) / (Wt : ℚ))) * (W : ℚ))))
    ∧ (¬((H : ℚ) / (Ht : ℚ) > (W : ℚ) / (Wt : ℚ)) →
      scale_size H W Ht Wt
        = (truncQ ((1 / max ((H : ℚ) / (Ht : ℚ)) ((W : ℚ) / (Wt : ℚ))) * (H : ℚ)), (Wt : ℤ)))
    ∧ (scale_size H W Ht Wt).1 ≤ (Ht : ℤ)
    ∧ (scale_size H W Ht Wt).2 ≤ (Wt : ℤ)
    ∧ ((scale_size H W Ht Wt).1 = (Ht : ℤ) ∨ (scale_size H W Ht Wt).2 = (Wt : ℤ)) := by
  have hHQ : (0 : ℚ) < (H : ℚ) := by exact_mod_cast hH
  have hWQ : (0 : ℚ) < (W : ℚ) := by exact_mod_cast hW
  have hHtQ : (0 : ℚ) < (Ht : ℚ) := by exact_mod_cast hHt
  have hWtQ : (0 : ℚ) < (Wt : ℚ) := by exact_mod_cast hWt
  by_cases hgt : (H : ℚ) / (Ht : ℚ) > (W : ℚ) / (Wt : ℚ)
  · have hmax : max ((H : ℚ) / (Ht : ℚ)) ((W : ℚ) / (Wt : ℚ)) = (H : ℚ) / (Ht : ℚ) :=
      max_eq_left (le_of_lt hgt)
    have hss : scale_size H W Ht Wt
        = ((Ht : ℤ), truncQ ((1 / max ((H : ℚ) / (Ht : ℚ)) ((W : ℚ) / (Wt : ℚ))) * (W : ℚ))) := by
      unfold scale_size
      rw [if_pos hgt]
    have hq0 : (0 : ℚ) ≤ (1 / max ((H : ℚ) / (Ht : ℚ)) ((W : ℚ) / (Wt : ℚ))) * (W : ℚ) := by
      rw [hmax]
      positivity
    have hmul : (W : ℚ) * (Ht : ℚ) < (H : ℚ) * (Wt : ℚ) :=
      (div_lt_div_iff hWtQ hHtQ).mp hgt
    have hle : (1 / max ((H : ℚ) / (Ht : ℚ)) ((W : ℚ) / (Wt : ℚ))) * (W : ℚ) ≤ (Wt : ℚ) := by
      rw [hmax, one_div_div, div_mul_eq_mul_div, div_le_iff hHQ]
      nlinarith
    have htr := truncQ_le_of_le _ Wt hq0 hle
    refine ⟨fun _ => hss, fun hc => absurd hgt hc, ?_, ?_, ?_⟩
    · rw [hss]
    · rw [hss]
      exact htr
    · rw [hss]
      exact Or.inl rfl
  · have hle0 : (H : ℚ) / (Ht : ℚ) ≤ (W : ℚ) / (Wt : ℚ) := not_lt.mp hgt
    have hmax : max ((H : ℚ) / (Ht : ℚ)) ((W : ℚ) / (Wt : ℚ)) = (W : ℚ) / (Wt : ℚ) :=
      max_eq_right hle0
    have hss : scale_size H W Ht Wt
        = (truncQ ((1 / max ((H : ℚ) / (Ht : ℚ)) ((W : ℚ) / (Wt : ℚ))) * (H : ℚ)), (Wt : ℤ)) := by
      unfold scale_size
      rw [if_neg hgt]
    have hq0 : (0 : ℚ) ≤ (1 / max ((H : ℚ) / (Ht : ℚ)) ((W : ℚ) / (Wt : ℚ))) * (H : ℚ) := by
      rw [hmax]
      positivity
    have hmul : (H : ℚ) * (Wt : ℚ) ≤ (W : ℚ) * (Ht : ℚ) :=
      (div_le_div_iff hHtQ hWtQ).mp hle0
    have hle : (1 / max ((H : ℚ) / (Ht : ℚ)) ((W : ℚ) / (Wt : ℚ))) * (H : ℚ) ≤ (Ht : ℚ) := by
      rw [hmax, one_div_div, div_mul_eq_mul_div, div_le_iff hWQ]
      nlinarith
    have htr := truncQ_le_of_le _ Ht hq0 hle
    refine ⟨fun hc => absurd hc hgt, fun _ => hss, ?_, ?_, ?_⟩
    · rw [hss]
      exact htr
    · rw [hss]
    · rw [hss]
      exact Or.inr rfl

/-- Witness for C5 at a concrete input: a 2x3 view scaled toward (4, 6)
(equal factors, else-branch). -/
theorem c5_witness :
    (0 < 2 ∧ 0 < 3 ∧ 0 < 4 ∧ 0 < 6)
    ∧ (((2 : ℕ) : ℚ) / ((4 : ℕ) : ℚ) > ((3 : ℕ) : ℚ) / ((6 : ℕ) : ℚ) →
        scale_size 2 3 4 6
          = ((4 : ℤ), truncQ ((1 / max (((2 : ℕ) : ℚ) / ((4 : ℕ) : ℚ)) (((3 : ℕ) : ℚ) / ((6 : ℕ) : ℚ))) * ((3 : ℕ) : ℚ))))
    ∧ (¬(((2 : ℕ) : ℚ) / ((4 : ℕ) : ℚ) > ((3 : ℕ) : ℚ) / ((6 : ℕ) : ℚ)) →
        scale_size 2 3 4 6
          = (truncQ ((1 / max (((2 : ℕ) : ℚ) / ((4 : ℕ) : ℚ)) (((3 : ℕ) : ℚ) / ((6 : ℕ) : ℚ))) * ((2 : ℕ) : ℚ)), (6 : ℤ)))
    ∧ (scale_size 2 3 4 6).1 ≤ (4 : ℤ)
    ∧ (scale_size 2 3 4 6).2 ≤ (6 : ℤ)
    ∧ ((scale_size 2 3 4 6).1 = (4 : ℤ) ∨ (scale_size 2 3 4 6).2 = (6 : ℤ)) :=
  ⟨⟨by decide, by decide, by decide, by decide⟩,
    c5_scale_size 2 3 4 6 (by decide) (by decide) (by decide) (by decide)⟩

/-- C5 counterexample: the claim as stated fails on the code in two ways. On
a 2x3 view scaled toward (4, 4), the code computes `int(f * H) = int(8/3) = 2`
(truncation), not `round(8/3) = 3` as claimed; and on a 2x2 view scaled toward
(4, 4) both resulting dimensions equal their targets, so "exactly one
dimension equals its target" also fails. -/
theorem c5_counterexample :
    scale_size 2 3 4 4 = (2, 4)
    ∧ scale_size_claimed 2 3 4 4 = (3, 4)
    ∧ scale_size 2 3 4 4 ≠ scale_size_claimed 2 3 4 4
    ∧ scale_size 2 2 4 4 = (4, 4)
    ∧ ¬(((scale_size 2 2 4 4).1 = 4 ∧ ¬((scale_size 2 2 4 4).2 = 4))
        ∨ (¬((scale_size 2 2 4 4).1 = 4) ∧ (scale_size 2 2 4 4).2 = 4)) := by
  have h1 : scale_size 2 3 4 4 = (2, 4) := by
    unfold scale_size
    norm_num [truncQ, max_def]
  have h2 : scale_size_claimed 2 3 4 4 = (3, 4) := by
    unfold scale_size_claimed
    norm_num [max_def, round_eq]
  have h3 : scale_size 2 2 4 4 = (4, 4) := by
    unfold scale_size
    norm_num [truncQ, max_def]
  refine ⟨h1, h2, by rw [h1, h2]; decide, h3, by rw [h3]; decide⟩

/-- C6: the view returned by `scale` carries intrinsics
`K = [[f,0,f],[0,f,f],[0,0,1]] @ K` for the computed factor
`f = 1 / max(H/Ht, W/Wt)`, and the original rotation and translation
unchanged, for every choice of the runtime's resampling primitive. -/
theorem c6_scale_intrinsics (rB : Tensor2 (ℕ → ℚ) → ℕ × ℕ → Tensor2 (ℕ → ℚ))
    (rD : Tensor2 Fp → ℕ × ℕ → Tensor2 Fp)
    (rM : Tensor2 Bool → ℕ × ℕ → Tensor2 Bool)
    (img : Image) (Ht Wt : ℕ) :
    (Image.scale rB rD rM img (Ht, Wt)).K
      = mul3 (kScaler (1 / max ((img.bitmap.h : ℚ) / ((Ht : ℕ) : ℚ)) ((img.bitmap.w : ℚ) / ((Wt : ℕ) : ℚ)))) img.K
    ∧ (Image.scale rB rD rM img (Ht, Wt)).R = img.R
    ∧ (Image.scale rB rD rM img (Ht, Wt)).T = img.T :=
  ⟨rfl, rfl, rfl⟩

/-- C1: for a view with invertible `K` and orthonormal `R`, and a pixel
coordinate `(x, y)` that is in-range, finite, and whose stored depth at the
truncated integer index is finite and non-zero (hypothesis `hfetch` states
exactly that the depth fetch at `(x, y)` yields a finite value `d`, and
`hd` that it is non-zero), `project(unproject([x, y]))` returns `(x, y)`
exactly — in particular within any floating tolerance. -/
theorem c1_roundtrip (img : Image) (x y d : ℚ)
    (hdet : det3 img.K ≠ 0)
    (horth : mul3 img.R (tr3 img.R) = i3 ∧ mul3 (tr3 img.R) img.R = i3)
    (hfetch : img.fetchOne (Fp.q x) (Fp.q y) = some (Fp.q d))
    (hd : d ≠ 0) :
    ∃ p, img.unproject x y = some p ∧ img.project p = (x, y) := by
  refine ⟨mulv (tr3 img.R) (vsub (smul d (mulv img.K_inv ⟨x, y, 1⟩)) img.T), ?_, ?_⟩
  · unfold Image.unproject
    rw [hfetch]
  · unfold Image.project Image.K_inv
    dsimp only
    rw [mulv_mulv, horth.1, mulv_i3, vsub_then_vadd, mulv_smul,
      mulv_inv3_cancel img.K hdet]
    dsimp only [smul]
    rw [mul_one]
    exact Prod.ext (mul_div_cancel_left₀ x hd) (mul_div_cancel_left₀ y hd)

/-- Witness for C1 at a concrete input: the 2x2 view with identity
calibration, fractional coordinate (1/2, 3/2), stored depth 10 at the
truncated pixel (1, 0). -/
theorem c1_witness :
    (det3 imgA.K ≠ 0
      ∧ (mul3 imgA.R (tr3 imgA.R) = i3 ∧ mul3 (tr3 imgA.R) imgA.R = i3)
      ∧ imgA.fetchOne (Fp.q half) (Fp.q threeHalves) = some (Fp.q 10)
      ∧ (10 : ℚ) ≠ 0)
    ∧ ∃ p, imgA.unproject half threeHalves = some p
        ∧ imgA.project p = (half, threeHalves) :=
  ⟨⟨by simp [imgA, Image.make, det3, i3],
      ⟨by simp [imgA, Image.make, mul3, tr3, i3],
        by simp [imgA, Image.make, mul3, tr3, i3]⟩,
      by decide, by decide⟩,
    c1_roundtrip imgA half threeHalves 10
      (by simp [imgA, Image.make, det3, i3])
      ⟨by simp [imgA, Image.make, mul3, tr3, i3],
        by simp [imgA, Image.make, mul3, tr3, i3]⟩
      (by decide) (by decide)⟩
